import Mathlib

/-!
Shallow embedding of the kuma_assets_all report pipeline.

Sources modelled:
- `src/unnamed/part_000` (data parsing_with_navigation.py) — the "navigation"
  pipeline; its functions carry the suffix `_nav`.
- `src/temp.py` — the "optimized" pipeline; suffix `_temp`.
- `src/data_parsing.py` — the lighter pipeline; suffix `_dp`.

Python scalar/container values are modelled by `PyVal`.  The two external
decoders used by the source, `json.loads` and `ast.literal_eval`, are standard
library functions, not repository code; they are passed as abstract parameters
`jloads lev : String → Option PyVal`, where `Option.none` models the decoder
raising (for `json.loads`: `json.JSONDecodeError`).  All definitions are
computable and decidable so concrete inputs can be evaluated in proofs.
-/

namespace KumaAssets

/-- Model of a Python value as it appears in the pipeline's cells:
`None`, booleans, integers, strings, lists, and string-keyed dicts.
Floats (hence real NaNs) are not modelled; `pd.isna` is modelled as
"is `None`", which is its behaviour on all values of this type
(see `pyIsNa`). -/
inductive PyVal where
  | null : PyVal
  | bool : Bool → PyVal
  | int : Int → PyVal
  | str : String → PyVal
  | list : List PyVal → PyVal
  | dict : List (String × PyVal) → PyVal

/-- Models `pd.isna` on the modelled (scalar) values: true exactly on `None`.
(`pd.isna` applied to a Python list is array-valued and makes the source's
`if` raise; claims are only instantiated at scalar values, see `pyScalar`.) -/
def pyIsNa : PyVal → Bool
  | PyVal.null => true
  | _ => false

/-- Values on which `pd.isna` behaves as a scalar predicate (everything but
lists, which pandas treats as array-like). -/
def pyScalar : PyVal → Bool
  | PyVal.list _ => false
  | _ => true

/-- Python truthiness (`bool(v)`): `None`, `False`, `0`, `''`, `[]`, `{}` are
falsy, everything else truthy. -/
def pyTruthy : PyVal → Bool
  | PyVal.null => false
  | PyVal.bool b => b
  | PyVal.int n => n != 0
  | PyVal.str s => s != ""
  | PyVal.list xs => !xs.isEmpty
  | PyVal.dict kvs => !kvs.isEmpty

/-- Python `v == ''` for the modelled values: true only for the empty string. -/
def isEmptyStr : PyVal → Bool
  | PyVal.str s => s == ""
  | _ => false

/-- Is the value a Python dict (a "mapping-like structure")? -/
def pyIsDict : PyVal → Bool
  | PyVal.dict _ => true
  | _ => false

/-- The key/value pairs of a dict value (junk `[]` on non-dicts). -/
def pyDictKvs : PyVal → List (String × PyVal)
  | PyVal.dict kvs => kvs
  | _ => []

/-- Python `repr(v)` for the modelled values (string escaping inside nested
containers is not modelled; no claim evaluates it). -/
def pyRepr : PyVal → String
  | PyVal.null => "None"
  | PyVal.bool b => if b then "True" else "False"
  | PyVal.int n => toString n
  | PyVal.str s => "\x27" ++ s ++ "\x27"
  | PyVal.list xs =>
      "[" ++ String.intercalate ", " (xs.attach.map (fun x => pyRepr x.1)) ++ "]"
  | PyVal.dict kvs =>
      "\x7b" ++ String.intercalate ", "
        (kvs.attach.map (fun p => "\x27" ++ p.1.1 ++ "\x27: " ++ pyRepr p.1.2)) ++ "\x7d"
decreasing_by
  · simp only [PyVal.list.sizeOf_spec]
    have h := List.sizeOf_lt_of_mem x.2
    omega
  · simp only [PyVal.dict.sizeOf_spec]
    have h := List.sizeOf_lt_of_mem p.2
    have h2 : sizeOf p.1.2 < sizeOf p.1 := by
      obtain ⟨a, b⟩ := p.1
      simp only [Prod.mk.sizeOf_spec]
      omega
    omega

/-- Python `str(v)`: the string itself for strings, `repr` otherwise
(which matches `str` on `None`, booleans, integers, lists and dicts). -/
def pyStr : PyVal → String
  | PyVal.str s => s
  | v => pyRepr v

/-- Python `dict.get k`: first binding of `k` (decoded dicts have distinct
keys). -/
def dictGet (kvs : List (String × PyVal)) (k : String) : Option PyVal :=
  (kvs.find? (fun p => p.1 == k)).map Prod.snd

/-- Characters stripped by Python `str.strip()` / split by `str.split()`
(ASCII whitespace; exotic unicode whitespace is not modelled). -/
abbrev wsChar (c : Char) : Bool := c.isWhitespace

/-- Drop leading whitespace characters (left part of `str.strip()`). -/
def ltrimCh (l : List Char) : List Char := l.dropWhile wsChar

/-- Drop trailing whitespace characters (right part of `str.strip()`). -/
def rtrimCh (l : List Char) : List Char := (l.reverse.dropWhile wsChar).reverse

/-- Python `str.strip()` on a character list. -/
def trimCh (l : List Char) : List Char := rtrimCh (ltrimCh l)

/-- Python `str.strip()`. -/
def pyStrip (s : String) : String := String.mk (trimCh s.toList)

/-- Models `str(item.get(field, '')).strip() or None`: the sub-field extraction used
for decoded OS dicts and software/vulnerability records — missing fields and
fields whose string form strips to the empty string become `None`. -/
def extractField (kvs : List (String × PyVal)) (k : String) : Option String :=
  let s := pyStrip (pyStr ((dictGet kvs k).getD (PyVal.str "")))
  if s = "" then Option.none else some s

/-- Does `l` start with the pattern `p` (character-wise)? -/
def startsWithList : List Char → List Char → Bool
  | [], _ => true
  | _ :: _, [] => false
  | p :: ps, c :: cs => p == c && startsWithList ps cs

/-- Does `l` contain the pattern `pat` as a contiguous run? -/
def containsList (pat : List Char) : List Char → Bool
  | [] => pat.isEmpty
  | c :: cs => startsWithList pat (c :: cs) || containsList pat cs

/-- Python `'pat' in s` (substring containment). -/
def strContains (s pat : String) : Bool := containsList pat.toList s.toList

/-- Python `str.lower()` for ASCII letters (the marker checks only involve
ASCII; unicode case mapping is not modelled). -/
def lowerStr (s : String) : String := String.mk (s.toList.map (fun c =>
  if 'A' ≤ c && c ≤ 'Z' then Char.ofNat (c.toNat + 32) else c))

/-- Does the OS string contain one of the structure markers
`'name'`/`'version'` (checked on the lowercased string in the source)? -/
def hasOsMarkers (s : String) : Bool :=
  strContains (lowerStr s) "name" || strContains (lowerStr s) "version"

/-- Split a character list at the LAST occurrence of `c`
(Python `s.rsplit(c, 1)` when it returns two parts); `none` when `c` does not
occur. -/
def rsplitChar (c : Char) : List Char → Option (List Char × List Char)
  | [] => Option.none
  | x :: xs =>
    match rsplitChar c xs with
    | some (a, b) => some (x :: a, b)
    | Option.none => if x = c then some ([], xs) else Option.none

/-- Python `s.rsplit(' ', 1)` in the two-part case: `some (before, after)`
split at the last space, `none` when the string has no space. -/
def rsplitSpace1 (s : String) : Option (String × String) :=
  (rsplitChar ' ' s.toList).map (fun p => (String.mk p.1, String.mk p.2))

/-- Shared tail of both `parse_os_data` versions once a decoded (or original
non-string) value is in hand: extract from dicts, otherwise
`(str(value), None)`. -/
def osFromDecoded (v : PyVal) : Option String × Option String :=
  match v with
  | PyVal.dict kvs => (extractField kvs "name", extractField kvs "version")
  | _ => (some (pyStr v), Option.none)

/-- Models `parse_os_data` of `src/unnamed/part_000` (lines 73–96).
Guard: `pd.isna(os_value) or os_value == ''`.  For marker-bearing strings the
decode chain is `json.loads`, then `ast.literal_eval` on `JSONDecodeError`,
with total failure returning `(str(os_value), None)` for the original string;
on success the decoded value replaces `os_value` before the dict check. -/
def parse_os_data_nav (jloads lev : String → Option PyVal) (v : PyVal) :
    Option String × Option String :=
  if pyIsNa v || isEmptyStr v then (Option.none, Option.none)
  else
    match v with
    | PyVal.str s =>
      if !hasOsMarkers s then
        match rsplitSpace1 s with
        | some (a, b) => (some a, some b)
        | Option.none => (some s, Option.none)
      else
        match jloads s with
        | some d => osFromDecoded d
        | Option.none =>
          match lev s with
          | some d => osFromDecoded d
          | Option.none => (some s, Option.none)
    | _ => osFromDecoded v

/-- Models `parse_os_data` of `src/temp.py` (lines 69–94).
Guard: `pd.isna(os_value) or not os_value` (truthiness!).  For marker-bearing
strings a single decoder is selected by the leading character
(`json.loads` if the string starts with `{`/`[`, else `ast.literal_eval`);
a non-dict decode result or a decode failure both end in
`(str(os_value), None)` with `os_value` still the original string. -/
def parse_os_data_temp (jloads lev : String → Option PyVal) (v : PyVal) :
    Option String × Option String :=
  if pyIsNa v || !pyTruthy v then (Option.none, Option.none)
  else
    match v with
    | PyVal.str s =>
      if !hasOsMarkers s then
        match rsplitSpace1 s with
        | some (a, b) => (some a, some b)
        | Option.none => (some s, Option.none)
      else
        match (if s.startsWith "\x7b" || s.startsWith "[" then jloads s else lev s) with
        | some (PyVal.dict kvs) => (extractField kvs "name", extractField kvs "version")
        | _ => (some s, Option.none)
    | PyVal.dict kvs => (extractField kvs "name", extractField kvs "version")
    | _ => (some (pyStr v), Option.none)

/-- The two-stage decode shared by all list-field parsers: `json.loads`,
falling back to `ast.literal_eval` when it raises. -/
def decodeChain (jloads lev : String → Option PyVal) (s : String) : Option PyVal :=
  match jloads s with
  | some d => some d
  | Option.none => lev s

/-- Models `parse_json_data` of `src/temp.py` (lines 96–120): generic list-field
parser.  Guard `pd.isna(value) or not value`; strings go through the decode
chain (total failure returns `[]`), non-strings are used as-is; a decoded
list keeps exactly its dict elements, each mapped to the given fields via
`str(item.get(field, '')).strip() or None`; any non-list decode yields `[]`. -/
def parse_json_data (jloads lev : String → Option PyVal) (v : PyVal)
    (fields : List String) : List (List (String × Option String)) :=
  if pyIsNa v || !pyTruthy v then []
  else
    let data? : Option PyVal :=
      match v with
      | PyVal.str s => decodeChain jloads lev s
      | other => some other
    match data? with
    | some (PyVal.list items) =>
        items.filterMap (fun it =>
          match it with
          | PyVal.dict kvs => some (fields.map (fun f => (f, extractField kvs f)))
          | _ => Option.none)
    | _ => []

/-- Models `parse_software_data` of `src/unnamed/part_000` (lines 98–118).
Guard `pd.isna(v) or v == ''`; decoded lists keep exactly their dict
elements, each becoming the record
`{'name': …, 'version': …, 'vendor': …}` with
`str(item.get(k, '')).strip() or None` per key. -/
def parse_software_data_nav (jloads lev : String → Option PyVal) (v : PyVal) :
    List (List (String × Option String)) :=
  if pyIsNa v || isEmptyStr v then []
  else
    let data? : Option PyVal :=
      match v with
      | PyVal.str s => decodeChain jloads lev s
      | other => some other
    match data? with
    | some (PyVal.list items) =>
        items.filterMap (fun it =>
          match it with
          | PyVal.dict kvs =>
              some [("name", extractField kvs "name"),
                    ("version", extractField kvs "version"),
                    ("vendor", extractField kvs "vendor")]
          | _ => Option.none)
    | _ => []

/-- The ten vulnerability sub-fields, in source order. -/
def vulnFields : List String :=
  ["kasperskyID", "productName", "descriptionURL", "recommendedMajorPatch",
   "recommendedMinorPatch", "severityStr", "severity", "cve",
   "exploitExists", "malwareExists"]

/-- Models `parse_vulnerabilities_data` of `src/unnamed/part_000` (lines 120–146):
same shape as `parse_software_data_nav` with the ten vulnerability keys. -/
def parse_vulnerabilities_data_nav (jloads lev : String → Option PyVal)
    (v : PyVal) : List (List (String × Option String)) :=
  if pyIsNa v || isEmptyStr v then []
  else
    let data? : Option PyVal :=
      match v with
      | PyVal.str s => decodeChain jloads lev s
      | other => some other
    match data? with
    | some (PyVal.list items) =>
        items.filterMap (fun it =>
          match it with
          | PyVal.dict kvs => some (vulnFields.map (fun f => (f, extractField kvs f)))
          | _ => Option.none)
    | _ => []

/-- A record produced by `parse_software_data` of `src/data_parsing.py`:
plain strings (that version has no `or None` defaulting). -/
structure SoftwareDP where
  software : String
  version : String
  vendor : String

instance : DecidableEq SoftwareDP := fun a b => by
  cases a; cases b
  exact decidable_of_iff _ (by simp [SoftwareDP.mk.injEq] at *; exact Iff.rfl)

/-- Models `parse_software_data` of `src/data_parsing.py` (lines 8–30).
Differences from the other pipelines, all caught by its outer
`except Exception`: a non-string input leaves `software_list` unbound
(`NameError` → `[]`); an element kept only `if any(item.values())`
(truthy-valued dicts, so empty dicts are dropped); a non-dict element raises
`AttributeError` at `item.values()`, discarding the whole result (`[]`);
sub-fields are `str(item.get(k, '')).strip()` with NO null-defaulting. -/
def parse_software_data_dp (jloads lev : String → Option PyVal) (v : PyVal) :
    List SoftwareDP :=
  if pyIsNa v then []
  else
    match v with
    | PyVal.str s =>
      match decodeChain jloads lev s with
      | some (PyVal.list items) =>
          if items.all pyIsDict then
            (items.filter (fun it => (pyDictKvs it).any (fun p => pyTruthy p.2))).map
              (fun it =>
                { software := pyStrip (pyStr ((dictGet (pyDictKvs it) "name").getD (PyVal.str "")))
                  version := pyStrip (pyStr ((dictGet (pyDictKvs it) "version").getD (PyVal.str "")))
                  vendor := pyStrip (pyStr ((dictGet (pyDictKvs it) "vendor").getD (PyVal.str ""))) })
          else []
      | some _ => []
      | Option.none => []
    | _ => []

/-- Helper for `re.sub(r'\[.*?\]', '', s)`: after an opening `[`, scan for the
first closing `]`; `.` does not match a newline, so a `\n` before the `]`
means the `[` has no match.  Returns the characters after the `]`. -/
def findClose : List Char → Option (List Char)
  | [] => Option.none
  | c :: rest =>
    if c = ']' then some rest
    else if c = '\n' then Option.none
    else findClose rest

/-- Models `re.sub(r'\[.*?\]', '', s)`: remove every non-greedy `[...]` span,
scanning left to right.  A match starts at a `[` and extends to the first
following `]` (with no intervening newline); an unmatched `[` is kept. -/
def removeBrackets (l : List Char) : List Char :=
  match l with
  | [] => []
  | c :: rest =>
    if c = '[' then
      match h2 : findClose rest with
      | some rest2 => removeBrackets rest2
      | Option.none => c :: removeBrackets rest
    else c :: removeBrackets rest
termination_by l.length
decreasing_by
  · have key : ∀ (l l' : List Char), findClose l = some l' → l'.length < l.length := by
      intro l
      induction l with
      | nil => intro l' h; simp [findClose] at h
      | cons c r ih =>
        intro l' h
        by_cases hc : c = ']'
        · simp [findClose, hc] at h
          subst h
          simp
        · by_cases hn : c = '\n'
          · simp [findClose, hc, hn] at h
          · simp [findClose, hc, hn] at h
            have := ih l' h
            simp
            omega
    simp only [List.length_cons]
    exact Nat.lt_succ_of_lt (key _ _ (by assumption))
  · simp only [List.length_cons]
    omega
  · simp only [List.length_cons]
    omega

/-- Python `s.split()`: the maximal whitespace-free runs of `s`, in order
(used by the navigation pipeline's tenant cleanup). -/
def wsTokens (l : List Char) : List (List Char) :=
  match l with
  | [] => []
  | c :: rest =>
    if wsChar c then wsTokens rest
    else (c :: rest.takeWhile (fun x => !wsChar x)) ::
      wsTokens (rest.dropWhile (fun x => !wsChar x))
termination_by l.length
decreasing_by
  · simp only [List.length_cons]
    omega
  · have key : ∀ (p : Char → Bool) (l : List Char), (l.dropWhile p).length ≤ l.length := by
      intro p l
      induction l with
      | nil => simp [List.dropWhile]
      | cons c cs ih => by_cases h : p c <;> simp [List.dropWhile_cons, h] <;> omega
    simp only [List.length_cons]
    exact Nat.lt_succ_of_le (key _ _)

/-- Python `' '.join(tokens)` on character lists. -/
def joinSp : List (List Char) → List Char
  | [] => []
  | [t] => t
  | t :: rest => t ++ ' ' :: joinSp rest

/-- The spec's description of whitespace normalization: replace every maximal
whitespace run by a single space (leading/trailing runs included; a final
trim is applied separately). -/
def collapseRuns (l : List Char) : List Char :=
  match l with
  | [] => []
  | c :: rest =>
    if wsChar c then ' ' :: collapseRuns (rest.dropWhile wsChar)
    else c :: collapseRuns rest
termination_by l.length
decreasing_by
  · have key : ∀ (p : Char → Bool) (l : List Char), (l.dropWhile p).length ≤ l.length := by
      intro p l
      induction l with
      | nil => simp [List.dropWhile]
      | cons c cs ih => by_cases h : p c <;> simp [List.dropWhile_cons, h] <;> omega
    simp only [List.length_cons]
    exact Nat.lt_succ_of_le (key _ _)
  · simp only [List.length_cons]
    omega

/-- Models `clean_tenant_name` of `src/temp.py` (lines 12–18): `None` for null input,
else `re.sub(r'\[.*?\]', '', str(v)).strip()` — brackets removed and the ends
trimmed, internal whitespace left untouched. -/
def clean_tenant_name_temp (v : PyVal) : Option String :=
  if pyIsNa v then Option.none
  else some (String.mk (trimCh (removeBrackets (pyStr v).toList)))

/-- Models `clean_tenant_name` of `src/unnamed/part_000` (lines 13–20): `None` for
null input, else brackets removed, then `' '.join(s.split())`, then
`.strip()`. -/
def clean_tenant_name_nav (v : PyVal) : Option String :=
  if pyIsNa v then Option.none
  else some (String.mk (trimCh (joinSp (wsTokens (removeBrackets (pyStr v).toList)))))

/-- Modelled from the spec's words (for comparison with the code): "removing
any bracketed substring … and collapsing internal whitespace runs to single
spaces, then trimming". -/
def specCleanName (s : String) : String :=
  String.mk (trimCh (collapseRuns (removeBrackets s.toList)))

/-- Keep the first occurrence of each element, in first-occurrence order —
pandas `Series.unique()` as used on the cleaned tenant column. -/
def uniqueFirst : List (Option String) → List (Option String)
  | [] => []
  | a :: l => a :: uniqueFirst (l.filter (fun x => x ≠ a))
termination_by l => l.length
decreasing_by
  have key : ∀ (p : Option String → Bool) (l : List (Option String)),
      (l.filter p).length ≤ l.length := by
    intro p l
    induction l with
    | nil => simp
    | cons c cs ih => by_cases h : p c <;> simp [List.filter_cons, h] <;> omega
  simp only [List.length_cons]
  exact Nat.lt_succ_of_le (key _ _)

/-- The tenant list of `process_data` (both pipelines):
`[t for t in merged_data['tenantName'].unique() if pd.notna(t)]`, after the
column was mapped through `clean_tenant_name`.  `pd.notna` drops only the
null cleaned names — the empty string survives. -/
def computeTenants (rawTenantCol : List PyVal) : List String :=
  (uniqueFirst (rawTenantCol.map clean_tenant_name_nav)).filterMap id

/-- The data rows of the navigation sheet (`create_navigation_sheet`): one row
per tenant starting at spreadsheet row 3, displaying the (re-)cleaned name. -/
def navRows (tenants : List String) : List (Nat × Option String) :=
  (List.range tenants.length).zip (tenants.map (fun t => clean_tenant_name_nav (PyVal.str t)))
    |>.map (fun p => (3 + p.1, p.2))

/-- One row of the combined inventory table (`all_data_combined.xlsx`):
the join key plus the raw payload columns the pipeline reads. -/
structure InvRow where
  fqdn : String
  tenantName : PyVal
  os : PyVal
  software : PyVal
  vulnerabilities : PyVal

/-- One row of the hardware table (`devices_report.xlsx`), restricted to the
required columns the source selects. -/
structure HwRow where
  fqdn : String
  networkCards : PyVal
  cpu : PyVal
  ram : PyVal
  diskSpace : PyVal

/-- Models `pd.merge(all_data, devices_report, on='fqdn', how='left')`: every
inventory row is kept in order; each is paired with every matching hardware
row (in hardware-table order), or with `none` (all hardware columns null)
when no hardware row matches. -/
def leftJoin (inv : List InvRow) (hw : List HwRow) : List (InvRow × Option HwRow) :=
  inv.foldr
    (fun r acc =>
      (match hw.filter (fun h => h.fqdn == r.fqdn) with
       | [] => [(r, Option.none)]
       | ms => ms.map (fun h => (r, some h))) ++ acc)
    []

/-- A merged-cell range on a sheet: rows `startRow..endRow` of column `col`. -/
structure MergeRange where
  startRow : Nat
  endRow : Nat
  col : Nat
deriving DecidableEq, Repr

/-- The grouped-data part of `create_merged_sheet`, for the single id column
`fqdn` used at every call site.  A group is `(key, firstItem, restItems)`
(pandas `groupby` groups are nonempty).  `appendPos` is the spreadsheet row
the next `ws.append` writes to; `mergeBase` is the source's `current_row`
variable.  Output: the data cells `(rowNumber, idCell, dataCells)` and the
merged ranges.

In `src/unnamed/part_000` (lines 211–259) the back-link occupies row 1 and
the header is written at `start_row = 2`, so appends land from row 3 and
`current_row = start_row + 1 = 3`: both counters start at 3.

In `src/temp.py` (lines 179–219) the back-link occupies row 1 and the header
is appended to row 2, so appends land from row 3 — but `current_row` is
initialized to 2. -/
def create_merged_sheet_model (appendPos mergeBase : Nat)
    (groups : List (String × List (Option String) × List (List (Option String)))) :
    List (Nat × Option String × List (Option String)) × List MergeRange :=
  match groups with
  | [] => ([], [])
  | (k, firstItem, restItems) :: gs =>
    let klen := 1 + restItems.length
    let thisRows : List (Nat × Option String × List (Option String)) :=
      (appendPos, some k, firstItem) ::
        ((List.range restItems.length).zip restItems).map
          (fun p => (appendPos + 1 + p.1, Option.none, p.2))
    let thisMerges : List MergeRange :=
      if restItems.length > 0 then [⟨mergeBase, mergeBase + klen - 1, 1⟩] else []
    let rec' := create_merged_sheet_model (appendPos + klen) (mergeBase + klen) gs
    (thisRows ++ rec'.1, thisMerges ++ rec'.2)

/-- Models `create_merged_sheet` of `src/unnamed/part_000`: rows and merges both
anchored at row 3. -/
def create_merged_sheet_nav
    (groups : List (String × List (Option String) × List (List (Option String)))) :
    List (Nat × Option String × List (Option String)) × List MergeRange :=
  create_merged_sheet_model 3 3 groups

/-- Models `create_merged_sheet` of `src/temp.py`: rows land from row 3 but
`current_row` starts at 2. -/
def create_merged_sheet_temp
    (groups : List (String × List (Option String) × List (List (Option String)))) :
    List (Nat × Option String × List (Option String)) × List MergeRange :=
  create_merged_sheet_model 3 2 groups

/-- The per-tenant loop of `process_data` with the `try/except Exception`
inside `create_tenant_sheets`: `body t` stands for the sheet-building code
for tenant `t` and returns the sheet names it added to the workbook before
either finishing (`false`) or raising (`true` — the exception is caught and
only logged, so the sheets already added remain). -/
def processTenantsLoop (body : String → List String × Bool)
    (tenants : List String) : List String :=
  tenants.foldr (fun t acc => (body t).1 ++ acc) []

/-! ## Generic list/whitespace lemmas -/

theorem length_dropWhile_le' (p : Char → Bool) (l : List Char) :
    (l.dropWhile p).length ≤ l.length := by
  induction l with
  | nil => simp [List.dropWhile]
  | cons c cs ih =>
    by_cases h : p c
    · simp only [List.dropWhile_cons_of_pos h, List.length_cons]
      omega
    · simp [List.dropWhile_cons_of_neg h]

theorem dropWhile_eq_self_of_neg {p : Char → Bool} {l : List Char}
    (h : ∀ c ∈ l, p c = false) : l.dropWhile p = l := by
  cases l with
  | nil => rfl
  | cons c cs =>
    exact List.dropWhile_cons_of_neg (by simp [h c (by simp)])

theorem dropWhile_head_false (p : Char → Bool) :
    ∀ (l : List Char) (d : Char) (r2 : List Char),
      l.dropWhile p = d :: r2 → p d = false := by
  intro l
  induction l with
  | nil => intro d r2 h; simp [List.dropWhile] at h
  | cons c cs ih =>
    intro d r2 h
    by_cases hc : p c
    · rw [List.dropWhile_cons_of_pos hc] at h
      exact ih d r2 h
    · rw [List.dropWhile_cons_of_neg hc] at h
      cases h
      simpa using hc

theorem mem_takeWhile_pos (p : Char → Bool) :
    ∀ (l : List Char) (x : Char), x ∈ l.takeWhile p → p x = true := by
  intro l
  induction l with
  | nil => intro x h; simp [List.takeWhile] at h
  | cons c cs ih =>
    intro x h
    by_cases hc : p c
    · rw [List.takeWhile_cons_of_pos hc] at h
      rcases List.mem_cons.mp h with h1 | h2
      · subst h1; exact hc
      · exact ih x h2
    · rw [List.takeWhile_cons_of_neg hc] at h
      simp at h

theorem dropWhile_append' (p : Char → Bool) :
    ∀ (a b : List Char),
      (a ++ b).dropWhile p =
        if a.dropWhile p = [] then b.dropWhile p else a.dropWhile p ++ b := by
  intro a b
  induction a with
  | nil => simp [List.dropWhile]
  | cons c cs ih =>
    by_cases hc : p c
    · simp only [List.cons_append, List.dropWhile_cons_of_pos hc]
      exact ih
    · simp [List.dropWhile_cons_of_neg hc]

theorem ltrimCh_cons_ws {c : Char} {l : List Char} (h : wsChar c = true) :
    ltrimCh (c :: l) = ltrimCh l := by
  simp [ltrimCh, List.dropWhile_cons_of_pos h]

theorem ltrimCh_cons_neg {c : Char} {l : List Char} (h : wsChar c = false) :
    ltrimCh (c :: l) = c :: l := by
  have hc : ¬ wsChar c = true := by simp [h]
  simp [ltrimCh, List.dropWhile_cons_of_neg hc]

theorem rtrimCh_nil : rtrimCh [] = [] := rfl

theorem rtrimCh_append (a b : List Char) :
    rtrimCh (a ++ b) = if rtrimCh b = [] then rtrimCh a else a ++ rtrimCh b := by
  unfold rtrimCh
  rw [List.reverse_append, dropWhile_append' wsChar b.reverse a.reverse]
  by_cases hb : b.reverse.dropWhile wsChar = []
  · simp [hb]
  · have hb2 : (b.reverse.dropWhile wsChar).reverse ≠ [] := by
      simpa using hb
    simp [hb, hb2]

theorem rtrimCh_all_neg {l : List Char} (h : ∀ c ∈ l, wsChar c = false) :
    rtrimCh l = l := by
  unfold rtrimCh
  rw [dropWhile_eq_self_of_neg (by intro c hc; exact h c (List.mem_reverse.mp hc))]
  exact List.reverse_reverse l

theorem rtrimCh_snoc_neg {c : Char} {l : List Char} (h : wsChar c = false) :
    rtrimCh (l ++ [c]) = l ++ [c] := by
  unfold rtrimCh
  rw [List.reverse_append]
  simp only [List.reverse_cons, List.reverse_nil, List.nil_append, List.singleton_append]
  rw [List.dropWhile_cons_of_neg (by simp [h])]
  simp

theorem trimCh_nil : trimCh [] = [] := rfl

theorem trimCh_cons_ws {c : Char} {l : List Char} (h : wsChar c = true) :
    trimCh (c :: l) = trimCh l := by
  simp [trimCh, ltrimCh_cons_ws h]

theorem trimCh_cons_neg {c : Char} {l : List Char} (h : wsChar c = false) :
    trimCh (c :: l) = rtrimCh (c :: l) := by
  simp [trimCh, ltrimCh_cons_neg h]

/-! ## Unfolding lemmas for the well-founded tokenization functions -/

theorem wsTokens_nil : wsTokens [] = [] := by
  rw [wsTokens]

theorem wsTokens_cons_ws {c : Char} {r : List Char} (h : wsChar c = true) :
    wsTokens (c :: r) = wsTokens r := by
  rw [wsTokens]
  simp [h]

theorem wsTokens_cons_neg {c : Char} {r : List Char} (h : wsChar c = false) :
    wsTokens (c :: r) =
      (c :: r.takeWhile (fun x => !wsChar x)) ::
        wsTokens (r.dropWhile (fun x => !wsChar x)) := by
  rw [wsTokens]
  simp [h]

theorem collapseRuns_nil : collapseRuns [] = [] := by
  rw [collapseRuns]

theorem collapseRuns_cons_ws {c : Char} {r : List Char} (h : wsChar c = true) :
    collapseRuns (c :: r) = ' ' :: collapseRuns (r.dropWhile wsChar) := by
  rw [collapseRuns]
  simp [h]

theorem collapseRuns_cons_neg {c : Char} {r : List Char} (h : wsChar c = false) :
    collapseRuns (c :: r) = c :: collapseRuns r := by
  rw [collapseRuns]
  simp [h]

theorem wsTokens_dropWhile_ws : ∀ l : List Char,
    wsTokens (l.dropWhile wsChar) = wsTokens l := by
  intro l
  induction l with
  | nil => simp [List.dropWhile]
  | cons c r ih =>
    by_cases hc : wsChar c
    · rw [List.dropWhile_cons_of_pos hc, ih, wsTokens_cons_ws hc]
    · rw [List.dropWhile_cons_of_neg hc]

theorem collapseRuns_split : ∀ l : List Char,
    collapseRuns l =
      l.takeWhile (fun x => !wsChar x) ++
        collapseRuns (l.dropWhile (fun x => !wsChar x)) := by
  intro l
  induction l with
  | nil => simp [List.takeWhile, List.dropWhile, collapseRuns_nil]
  | cons c r ih =>
    by_cases hc : wsChar c
    · rw [List.takeWhile_cons_of_neg (by simp [hc]),
        List.dropWhile_cons_of_neg (by simp [hc])]
      simp
    · rw [collapseRuns_cons_neg (by simpa using hc),
        List.takeWhile_cons_of_pos (by simp [hc]),
        List.dropWhile_cons_of_pos (by simp [hc]), ih]
      simp

theorem joinSp_ne_nil {t : List Char} (ht : t ≠ []) (ts : List (List Char)) :
    joinSp (t :: ts) ≠ [] := by
  cases ts with
  | nil => simpa [joinSp] using ht
  | cons t2 ts2 =>
    simp only [joinSp]
    intro h
    rcases List.append_eq_nil.mp h with ⟨h1, _⟩
    exact ht h1

theorem joinSp_cons_cons (t t2 : List Char) (ts : List (List Char)) :
    joinSp (t :: t2 :: ts) = t ++ ' ' :: joinSp (t2 :: ts) := rfl

/-- Every token produced by `wsTokens` is nonempty and whitespace-free. -/
theorem wsTokens_wf : ∀ (n : Nat) (l : List Char), l.length ≤ n →
    ∀ t ∈ wsTokens l, t ≠ [] ∧ ∀ c ∈ t, wsChar c = false := by
  intro n
  induction n with
  | zero =>
    intro l hl
    have : l = [] := List.eq_nil_of_length_eq_zero (Nat.le_zero.mp hl)
    subst this
    simp [wsTokens_nil]
  | succ n ih =>
    intro l hl t ht
    match l with
    | [] => simp [wsTokens_nil] at ht
    | c :: r =>
      simp only [List.length_cons] at hl
      by_cases hc : wsChar c
      · rw [wsTokens_cons_ws hc] at ht
        exact ih r (by omega) t ht
      · rw [wsTokens_cons_neg (by simpa using hc)] at ht
        rcases List.mem_cons.mp ht with h1 | h2
        · subst h1
          refine ⟨by simp, ?_⟩
          intro x hx
          rcases List.mem_cons.mp hx with h3 | h4
          · subst h3; simpa using hc
          · have := mem_takeWhile_pos (fun x => !wsChar x) r x h4
            simpa using this
        · have hlen : (r.dropWhile (fun x => !wsChar x)).length ≤ n := by
            have := length_dropWhile_le' (fun x => !wsChar x) r
            omega
          exact ih _ hlen t h2

theorem ltrim_joinSp_tokens (l : List Char) :
    ltrimCh (joinSp (wsTokens l)) = joinSp (wsTokens l) := by
  cases h : wsTokens l with
  | nil => simp [joinSp, ltrimCh, List.dropWhile]
  | cons t ts =>
    have hwf := wsTokens_wf l.length l (le_refl _) t (by rw [h]; simp)
    match t, hwf.1 with
    | c :: t2, _ =>
      have hc : wsChar c = false := hwf.2 c (by simp)
      cases ts with
      | nil => simpa [joinSp] using ltrimCh_cons_neg hc
      | cons t3 ts3 =>
        rw [joinSp_cons_cons, List.cons_append]
        exact ltrimCh_cons_neg hc

/-- A nonempty token list joins to a string ending in a non-whitespace
character. -/
theorem joinSp_snoc : ∀ (ts : List (List Char)),
    (∀ t ∈ ts, t ≠ [] ∧ ∀ c ∈ t, wsChar c = false) → ts ≠ [] →
    ∃ y c, joinSp ts = y ++ [c] ∧ wsChar c = false := by
  intro ts
  induction ts with
  | nil => intro _ h; exact absurd rfl h
  | cons t ts2 ih =>
    intro hwf _
    cases ts2 with
    | nil =>
      have ht := hwf t (by simp)
      obtain ⟨c, y', hy⟩ : ∃ c y', t.reverse = c :: y' := by
        cases hr : t.reverse with
        | nil => exact absurd (by simpa using hr) ht.1
        | cons c y' => exact ⟨c, y', rfl⟩
      refine ⟨y'.reverse, c, ?_, ?_⟩
      · have : t = y'.reverse ++ [c] := by
          have := congrArg List.reverse hy
          simpa [List.reverse_cons] using this
        simpa [joinSp] using this
      · refine ht.2 c ?_
        have : c ∈ t.reverse := by rw [hy]; simp
        exact List.mem_reverse.mp this
    | cons t3 ts3 =>
      obtain ⟨y, c, hy, hc⟩ := ih
        (by intro x hx; exact hwf x (by simp [hx])) (by simp)
      refine ⟨t ++ ' ' :: y, c, ?_, hc⟩
      rw [joinSp_cons_cons, hy]
      simp

theorem rtrim_joinSp_tokens (l : List Char) :
    rtrimCh (joinSp (wsTokens l)) = joinSp (wsTokens l) := by
  cases h : wsTokens l with
  | nil => simp [joinSp, rtrimCh_nil]
  | cons t ts =>
    obtain ⟨y, c, hy, hc⟩ := joinSp_snoc (t :: ts)
      (by intro x hx; exact wsTokens_wf l.length l (le_refl _) x (by rw [h]; exact hx))
      (by simp)
    rw [hy]
    exact rtrimCh_snoc_neg hc

/-- The joined token list is already fully trimmed. -/
theorem trim_joinSp_tokens (l : List Char) :
    trimCh (joinSp (wsTokens l)) = joinSp (wsTokens l) := by
  unfold trimCh
  rw [show ltrimCh (joinSp (wsTokens l)) = joinSp (wsTokens l) from ltrim_joinSp_tokens l,
    rtrim_joinSp_tokens l]

/-- Core normalization equivalence, with an auxiliary second component for
whitespace-headed lists: collapsing whitespace runs to single spaces and then
trimming is the same as joining the whitespace-separated tokens with single
spaces (Python `' '.join(s.split())`). -/
theorem trimCollapse_joinTokens_aux : ∀ (n : Nat) (l : List Char), l.length ≤ n →
    (trimCh (collapseRuns l) = joinSp (wsTokens l)) ∧
    (∀ d r2, l = d :: r2 → wsChar d = true →
      rtrimCh (collapseRuns l) =
        if wsTokens l = [] then [] else ' ' :: joinSp (wsTokens l)) := by
  intro n
  induction n with
  | zero =>
    intro l hl
    have hnil : l = [] := List.eq_nil_of_length_eq_zero (Nat.le_zero.mp hl)
    subst hnil
    constructor
    · simp [collapseRuns_nil, wsTokens_nil, joinSp, trimCh_nil]
    · intro d r2 h; simp at h
  | succ n ih =>
    intro l hl
    match l with
    | [] =>
      constructor
      · simp [collapseRuns_nil, wsTokens_nil, joinSp, trimCh_nil]
      · intro d r2 h; simp at h
    | c :: r =>
      simp only [List.length_cons] at hl
      constructor
      · -- first component: trimCh (collapseRuns (c :: r)) = joinSp (wsTokens (c :: r))
        by_cases hc : wsChar c
        · rw [collapseRuns_cons_ws hc, wsTokens_cons_ws hc,
            trimCh_cons_ws (by decide : wsChar ' ' = true)]
          have hlen : (r.dropWhile wsChar).length ≤ n := by
            have := length_dropWhile_le' wsChar r
            omega
          rw [(ih (r.dropWhile wsChar) hlen).1, wsTokens_dropWhile_ws r]
        · have hc' : wsChar c = false := by simpa using hc
          rw [wsTokens_cons_neg hc']
          have hsplit : collapseRuns (c :: r) =
              (c :: r.takeWhile (fun x => !wsChar x)) ++
                collapseRuns (r.dropWhile (fun x => !wsChar x)) := by
            rw [collapseRuns_cons_neg hc', collapseRuns_split r]
            simp
          rw [hsplit]
          have htkwf : ∀ x ∈ c :: r.takeWhile (fun x => !wsChar x), wsChar x = false := by
            intro x hx
            rcases List.mem_cons.mp hx with h1 | h2
            · subst h1; exact hc'
            · have := mem_takeWhile_pos (fun x => !wsChar x) r x h2
              simpa using this
          have hhead : trimCh ((c :: r.takeWhile (fun x => !wsChar x)) ++
              collapseRuns (r.dropWhile (fun x => !wsChar x))) =
              rtrimCh ((c :: r.takeWhile (fun x => !wsChar x)) ++
                collapseRuns (r.dropWhile (fun x => !wsChar x))) := by
            rw [List.cons_append, trimCh_cons_neg hc']
          rw [hhead, rtrimCh_append]
          cases hr2 : r.dropWhile (fun x => !wsChar x) with
          | nil =>
            rw [collapseRuns_nil, rtrimCh_nil, if_pos rfl,
              rtrimCh_all_neg htkwf, wsTokens_nil]
            simp [joinSp]
          | cons d r2 =>
            have hd : wsChar d = true := by
              have := dropWhile_head_false (fun x => !wsChar x) r d r2 hr2
              simpa using this
            have hrestlen : (d :: r2).length ≤ n := by
              have h2 := length_dropWhile_le' (fun x => !wsChar x) r
              rw [hr2] at h2
              simp only [List.length_cons] at h2 ⊢
              omega
            have hq := (ih (d :: r2) hrestlen).2 d r2 rfl hd
            rw [hq]
            by_cases htok : wsTokens (d :: r2) = []
            · rw [if_pos htok, if_pos rfl, rtrimCh_all_neg htkwf, htok]
              simp [joinSp]
            · rw [if_neg htok, if_neg (by simp)]
              cases htoks : wsTokens (d :: r2) with
              | nil => exact absurd htoks htok
              | cons t2 ts =>
                rw [joinSp_cons_cons]
      · -- second component: c :: r starts with whitespace
        intro d r2 hdr hd
        cases hdr
        rw [collapseRuns_cons_ws hd, wsTokens_cons_ws hd]
        have hjoin : rtrimCh (' ' :: collapseRuns (r.dropWhile wsChar)) =
            if rtrimCh (collapseRuns (r.dropWhile wsChar)) = []
            then rtrimCh [' ']
            else [' '] ++ rtrimCh (collapseRuns (r.dropWhile wsChar)) := by
          have := rtrimCh_append [' '] (collapseRuns (r.dropWhile wsChar))
          simpa using this
        rw [hjoin]
        cases hu : r.dropWhile wsChar with
        | nil =>
          rw [collapseRuns_nil, rtrimCh_nil, if_pos rfl]
          have hwt : wsTokens r = [] := by
            rw [← wsTokens_dropWhile_ws r, hu, wsTokens_nil]
          rw [hwt, if_pos rfl]
          decide
        | cons e u2 =>
          have he : wsChar e = false :=
            dropWhile_head_false wsChar r e u2 hu
          have hulen : (e :: u2).length ≤ n := by
            have h2 := length_dropWhile_le' wsChar r
            rw [hu] at h2
            simp only [List.length_cons] at h2 ⊢
            omega
          have heq : rtrimCh (collapseRuns (e :: u2)) = joinSp (wsTokens (e :: u2)) := by
            have h3 := (ih (e :: u2) hulen).1
            rw [collapseRuns_cons_neg he, trimCh_cons_neg he,
              ← collapseRuns_cons_neg he] at h3
            exact h3
          have htoku : wsTokens (e :: u2) =
              (e :: u2.takeWhile (fun x => !wsChar x)) ::
                wsTokens (u2.dropWhile (fun x => !wsChar x)) :=
            wsTokens_cons_neg he
          have hne : joinSp (wsTokens (e :: u2)) ≠ [] := by
            rw [htoku]
            exact joinSp_ne_nil (by simp) _
          rw [heq, if_neg hne]
          have hsame : wsTokens r = wsTokens (e :: u2) := by
            rw [← wsTokens_dropWhile_ws r, hu]
          rw [hsame]
          have hne2 : wsTokens (e :: u2) ≠ [] := by
            rw [htoku]
            simp
          rw [if_neg hne2]
          simp

/-- Collapsing whitespace runs then trimming equals the source's
`' '.join(s.split())`. -/
theorem trimCollapse_eq_joinTokens (l : List Char) :
    trimCh (collapseRuns l) = joinSp (wsTokens l) :=
  (trimCollapse_joinTokens_aux l.length l (le_refl _)).1

/-! ## Helpers for the list-field parsers and the tenant partition -/

/-- Keeping the dict elements of a decoded list and mapping them is the same
as filtering on `pyIsDict` and mapping over the dict contents. -/
theorem filterMapDict {β : Type} (g : List (String × PyVal) → β) :
    ∀ items : List PyVal,
      (items.filterMap (fun it =>
          match it with
          | PyVal.dict kvs => some (g kvs)
          | _ => Option.none))
        = (items.filter pyIsDict).map (fun it => g (pyDictKvs it)) := by
  intro items
  induction items with
  | nil => simp
  | cons it rest ih =>
    cases it <;>
      simp [List.filterMap_cons, List.filter_cons, pyIsDict, pyDictKvs, ih]

theorem uniqueFirst_mem : ∀ (n : Nat) (l : List (Option String)),
    l.length ≤ n → ∀ x, x ∈ uniqueFirst l ↔ x ∈ l := by
  intro n
  induction n with
  | zero =>
    intro l hl x
    have : l = [] := List.eq_nil_of_length_eq_zero (Nat.le_zero.mp hl)
    subst this
    rw [uniqueFirst]
  | succ n ih =>
    intro l hl x
    match l with
    | [] => rw [uniqueFirst]
    | a :: r =>
      simp only [List.length_cons] at hl
      rw [uniqueFirst]
      have hlen : (r.filter (fun y => y ≠ a)).length ≤ n := by
        have := List.length_filter_le (fun y => y ≠ a) r
        omega
      constructor
      · intro hx
        rcases List.mem_cons.mp hx with h1 | h2
        · subst h1; simp
        · have := (ih _ hlen x).mp h2
          have := List.mem_filter.mp this
          simp only [List.mem_cons]
          exact Or.inr this.1
      · intro hx
        rcases List.mem_cons.mp hx with h1 | h2
        · subst h1; simp
        · by_cases hxa : x = a
          · subst hxa; simp
          · simp only [List.mem_cons]
            refine Or.inr ((ih _ hlen x).mpr ?_)
            exact List.mem_filter.mpr ⟨h2, by simpa using hxa⟩

theorem uniqueFirst_nodup : ∀ (n : Nat) (l : List (Option String)),
    l.length ≤ n → (uniqueFirst l).Nodup := by
  intro n
  induction n with
  | zero =>
    intro l hl
    have : l = [] := List.eq_nil_of_length_eq_zero (Nat.le_zero.mp hl)
    subst this
    rw [uniqueFirst]
    exact List.nodup_nil
  | succ n ih =>
    intro l hl
    match l with
    | [] => rw [uniqueFirst]; exact List.nodup_nil
    | a :: r =>
      simp only [List.length_cons] at hl
      rw [uniqueFirst]
      have hlen : (r.filter (fun y => y ≠ a)).length ≤ n := by
        have := List.length_filter_le (fun y => y ≠ a) r
        omega
      refine List.Nodup.cons ?_ (ih _ hlen)
      intro hmem
      have h2 := (uniqueFirst_mem n _ hlen a).mp hmem
      have := List.mem_filter.mp h2
      simp at this

theorem computeTenants_mem (raw : List PyVal) (c : String) :
    c ∈ computeTenants raw ↔ some c ∈ raw.map clean_tenant_name_nav := by
  unfold computeTenants
  rw [List.mem_filterMap]
  constructor
  · rintro ⟨a, ha, hid⟩
    cases a with
    | none => simp [Option.mem_def] at hid
    | some b =>
      have : b = c := by simpa [Option.mem_def] using hid
      subst this
      exact (uniqueFirst_mem (raw.map clean_tenant_name_nav).length _ (le_refl _) _).mp ha
  · intro h
    refine ⟨some c, ?_, by simp [Option.mem_def]⟩
    exact (uniqueFirst_mem (raw.map clean_tenant_name_nav).length _ (le_refl _) _).mpr h

theorem computeTenants_nodup (raw : List PyVal) : (computeTenants raw).Nodup := by
  unfold computeTenants
  refine List.Nodup.filterMap ?_
    (uniqueFirst_nodup (raw.map clean_tenant_name_nav).length _ (le_refl _))
  intro a a' b hb hb'
  have h1 : a = some b := by simpa [Option.mem_def] using hb
  have h2 : a' = some b := by simpa [Option.mem_def] using hb'
  rw [h1, h2]

/-! ## Claim theorems -/

/-- C1 (amended): for every non-null, NON-EMPTY string OS-field input: if the
string contains neither marker "name" nor "version" (case-insensitive),
`parse_os_data` splits at the last space (whole string and null when there is
no space); if it does contain a marker and the two-stage decode chain yields
a mapping, the result is the trimmed `name`/`version` sub-fields with empty
strings mapped to null; if both decode stages fail the result is
(raw string, null).  (The empty string, although non-null, returns
(null, null) — see the counterexample.) -/
theorem C1_parse_os_string (jloads lev : String → Option PyVal) (s : String)
    (hs : s ≠ "") :
    (hasOsMarkers s = false →
      ((∀ a b, rsplitSpace1 s = some (a, b) →
          parse_os_data_nav jloads lev (PyVal.str s) = (some a, some b)) ∧
        (rsplitSpace1 s = Option.none →
          parse_os_data_nav jloads lev (PyVal.str s) = (some s, Option.none)))) ∧
    (∀ kvs, hasOsMarkers s = true →
      (jloads s = some (PyVal.dict kvs) ∨
        (jloads s = Option.none ∧ lev s = some (PyVal.dict kvs))) →
      parse_os_data_nav jloads lev (PyVal.str s) =
        (extractField kvs "name", extractField kvs "version")) ∧
    (hasOsMarkers s = true → jloads s = Option.none → lev s = Option.none →
      parse_os_data_nav jloads lev (PyVal.str s) = (some s, Option.none)) := by
  have hguard : (pyIsNa (PyVal.str s) || isEmptyStr (PyVal.str s)) = false := by
    simp [pyIsNa, isEmptyStr, hs]
  refine ⟨?_, ?_, ?_⟩
  · intro hm
    constructor
    · intro a b hab
      simp [parse_os_data_nav, hguard, hm, hab]
    · intro hab
      simp [parse_os_data_nav, hguard, hm, hab]
  · intro kvs hm hdec
    rcases hdec with h1 | ⟨h1, h2⟩
    · simp [parse_os_data_nav, hguard, hm, h1, osFromDecoded]
    · simp [parse_os_data_nav, hguard, hm, h1, h2, osFromDecoded]
  · intro hm h1 h2
    simp [parse_os_data_nav, hguard, hm, h1, h2]

/-- C1 witness: the amended theorem applied at the plain string
"Ubuntu 22.04" with decoders that always fail. -/
theorem C1_witness :
    ("Ubuntu 22.04" ≠ "") ∧ hasOsMarkers "Ubuntu 22.04" = false ∧
    rsplitSpace1 "Ubuntu 22.04" = some ("Ubuntu", "22.04") ∧
    parse_os_data_nav (fun _ => Option.none) (fun _ => Option.none)
      (PyVal.str "Ubuntu 22.04") = (some "Ubuntu", some "22.04") := by
  refine ⟨by decide, by decide, by decide, ?_⟩
  exact ((C1_parse_os_string (fun _ => Option.none) (fun _ => Option.none)
    "Ubuntu 22.04" (by decide)).1 (by decide)).1 "Ubuntu" "22.04" (by decide)

/-- C1 counterexample: the empty string is a non-null string input with no
marker and no space, so the claim as stated demands (whole string, null) =
(some "", null); the code returns (null, null) instead. -/
theorem C1_counterexample :
    hasOsMarkers "" = false ∧ rsplitSpace1 "" = Option.none ∧
    parse_os_data_nav (fun _ => Option.none) (fun _ => Option.none)
      (PyVal.str "") = (Option.none, Option.none) ∧
    parse_os_data_nav (fun _ => Option.none) (fun _ => Option.none)
      (PyVal.str "") ≠ (some "", Option.none) := by
  decide

/-- C2: every software/vulnerability list-field parser returns the empty list
when both decode stages fail; as total Lean functions they cannot raise. -/
theorem C2_parsers_empty_on_decode_failure
    (jloads lev : String → Option PyVal) (s : String) (fields : List String)
    (hj : jloads s = Option.none) (hl : lev s = Option.none) :
    parse_json_data jloads lev (PyVal.str s) fields = [] ∧
    parse_software_data_nav jloads lev (PyVal.str s) = [] ∧
    parse_vulnerabilities_data_nav jloads lev (PyVal.str s) = [] ∧
    parse_software_data_dp jloads lev (PyVal.str s) = [] := by
  by_cases hs : s = ""
  · subst hs
    refine ⟨?_, ?_, ?_, ?_⟩ <;>
      simp [parse_json_data, parse_software_data_nav,
        parse_vulnerabilities_data_nav, parse_software_data_dp,
        pyIsNa, pyTruthy, isEmptyStr, decodeChain, hj, hl]
  · refine ⟨?_, ?_, ?_, ?_⟩ <;>
      simp [parse_json_data, parse_software_data_nav,
        parse_vulnerabilities_data_nav, parse_software_data_dp,
        pyIsNa, pyTruthy, isEmptyStr, decodeChain, hj, hl, hs]

/-- C2 witness: the theorem applied at the undecodable string "oops". -/
theorem C2_witness :
    parse_json_data (fun _ => Option.none) (fun _ => Option.none)
      (PyVal.str "oops") ["name"] = [] ∧
    parse_software_data_nav (fun _ => Option.none) (fun _ => Option.none)
      (PyVal.str "oops") = [] ∧
    parse_vulnerabilities_data_nav (fun _ => Option.none) (fun _ => Option.none)
      (PyVal.str "oops") = [] ∧
    parse_software_data_dp (fun _ => Option.none) (fun _ => Option.none)
      (PyVal.str "oops") = [] :=
  C2_parsers_empty_on_decode_failure (fun _ => Option.none)
    (fun _ => Option.none) "oops" ["name"] rfl rfl

/-- C3 (amended): for a list-decoding field, the two full pipelines
(`parse_json_data` of temp.py, `parse_software_data`/
`parse_vulnerabilities_data` of part_000) keep exactly the mapping elements,
in order, and every expected sub-field that is missing or trims to the empty
string is null; the `data_parsing.py` parser does NOT satisfy this (see the
counterexample). -/
theorem C3_keep_mapping_elements (jloads lev : String → Option PyVal)
    (s : String) (hs : s ≠ "") (items : List PyVal)
    (hdec : decodeChain jloads lev s = some (PyVal.list items)) :
    (∀ fields, parse_json_data jloads lev (PyVal.str s) fields =
        (items.filter pyIsDict).map
          (fun it => fields.map (fun f => (f, extractField (pyDictKvs it) f)))) ∧
    (parse_software_data_nav jloads lev (PyVal.str s) =
        (items.filter pyIsDict).map
          (fun it => [("name", extractField (pyDictKvs it) "name"),
                      ("version", extractField (pyDictKvs it) "version"),
                      ("vendor", extractField (pyDictKvs it) "vendor")])) ∧
    (parse_vulnerabilities_data_nav jloads lev (PyVal.str s) =
        (items.filter pyIsDict).map
          (fun it => vulnFields.map (fun f => (f, extractField (pyDictKvs it) f)))) ∧
    (∀ kvs f, dictGet kvs f = Option.none → extractField kvs f = Option.none) ∧
    (∀ kvs f w, dictGet kvs f = some w → pyStrip (pyStr w) = "" →
        extractField kvs f = Option.none) := by
  have hguard1 : (pyIsNa (PyVal.str s) || !pyTruthy (PyVal.str s)) = false := by
    simp [pyIsNa, pyTruthy, hs]
  have hguard2 : (pyIsNa (PyVal.str s) || isEmptyStr (PyVal.str s)) = false := by
    simp [pyIsNa, isEmptyStr, hs]
  refine ⟨?_, ?_, ?_, ?_, ?_⟩
  · intro fields
    have h := filterMapDict
      (fun kvs => fields.map (fun f => (f, extractField kvs f))) items
    simp only [parse_json_data, hguard1, Bool.false_eq_true, if_false, hdec]
    exact h
  · have h := filterMapDict
      (fun kvs => [("name", extractField kvs "name"),
                   ("version", extractField kvs "version"),
                   ("vendor", extractField kvs "vendor")]) items
    simp only [parse_software_data_nav, hguard2, Bool.false_eq_true, if_false, hdec]
    exact h
  · have h := filterMapDict
      (fun kvs => vulnFields.map (fun f => (f, extractField kvs f))) items
    simp only [parse_vulnerabilities_data_nav, hguard2, Bool.false_eq_true,
      if_false, hdec]
    exact h
  · intro kvs f h
    simp [extractField, h, pyStrip, pyStr, trimCh, ltrimCh, rtrimCh]
  · intro kvs f w h1 h2
    simp [extractField, h1, h2]

/-- C3 witness: the amended theorem applied to a decoded list holding one
mapping (with a padded name and no version/vendor) and one non-mapping. -/
theorem C3_witness :
    parse_software_data_nav
      (fun _ => some (PyVal.list [PyVal.dict [("name", PyVal.str " a ")], PyVal.int 7]))
      (fun _ => Option.none) (PyVal.str "sw") =
    (([PyVal.dict [("name", PyVal.str " a ")], PyVal.int 7].filter pyIsDict).map
      (fun it => [("name", extractField (pyDictKvs it) "name"),
                  ("version", extractField (pyDictKvs it) "version"),
                  ("vendor", extractField (pyDictKvs it) "vendor")])) :=
  (C3_keep_mapping_elements
    (fun _ => some (PyVal.list [PyVal.dict [("name", PyVal.str " a ")], PyVal.int 7]))
    (fun _ => Option.none) "sw" (by decide) _ rfl).2.1

/-- C3 counterexample: a field decoding to the list `[{}]` (one empty
mapping).  The claim demands the mapping be kept with null sub-fields — the
part_000 parser does keep it, but `data_parsing.py`'s `parse_software_data`
keeps an element only `if any(item.values())` and so returns `[]`. -/
theorem C3_counterexample :
    decodeChain (fun _ => some (PyVal.list [PyVal.dict []])) (fun _ => Option.none)
      "x" = some (PyVal.list [PyVal.dict []]) ∧
    pyIsDict (PyVal.dict []) = true ∧
    parse_software_data_nav (fun _ => some (PyVal.list [PyVal.dict []]))
      (fun _ => Option.none) (PyVal.str "x") =
      [[("name", Option.none), ("version", Option.none), ("vendor", Option.none)]] ∧
    parse_software_data_dp (fun _ => some (PyVal.list [PyVal.dict []]))
      (fun _ => Option.none) (PyVal.str "x") = [] := by
  refine ⟨rfl, rfl, by decide, by decide⟩

/-- C4 (amended): the navigation pipeline's `clean_tenant_name` computes
exactly the claimed normalization (brackets removed, whitespace runs
collapsed, trimmed); temp.py's version only removes brackets and trims the
ends (see the counterexample); both clean "Acme [LEGACY]" to "Acme". -/
theorem C4_clean_tenant_name :
    (∀ s : String, clean_tenant_name_nav (PyVal.str s) = some (specCleanName s)) ∧
    clean_tenant_name_temp (PyVal.str "Acme [LEGACY]") = some "Acme" ∧
    clean_tenant_name_nav (PyVal.str "Acme [LEGACY]") = some "Acme" := by
  refine ⟨?_, ?_, ?_⟩
  · intro s
    unfold clean_tenant_name_nav specCleanName
    simp only [pyIsNa, Bool.false_eq_true, if_false, pyStr]
    rw [trim_joinSp_tokens, trimCollapse_eq_joinTokens]
  · simp +decide [clean_tenant_name_temp, pyIsNa, pyStr, removeBrackets,
      findClose, trimCh, ltrimCh, rtrimCh]
  · simp +decide [clean_tenant_name_nav, pyIsNa, pyStr, removeBrackets,
      findClose, wsTokens, joinSp, trimCh, ltrimCh, rtrimCh]

/-- C4 counterexample: on "Acme [LEGACY] Inc" the bracket removal leaves a
double space; temp.py's `clean_tenant_name` keeps it, so its output differs
from the claimed collapse-and-trim normalization. -/
theorem C4_counterexample :
    clean_tenant_name_temp (PyVal.str "Acme [LEGACY] Inc") = some "Acme  Inc" ∧
    specCleanName "Acme [LEGACY] Inc" = "Acme Inc" ∧
    clean_tenant_name_temp (PyVal.str "Acme [LEGACY] Inc") ≠
      some (specCleanName "Acme [LEGACY] Inc") := by
  have h1 : clean_tenant_name_temp (PyVal.str "Acme [LEGACY] Inc") =
      some "Acme  Inc" := by
    simp +decide [clean_tenant_name_temp, pyIsNa, pyStr, removeBrackets,
      findClose, trimCh, ltrimCh, rtrimCh]
  have h2 : specCleanName "Acme [LEGACY] Inc" = "Acme Inc" := by
    simp +decide [specCleanName, removeBrackets, findClose, collapseRuns,
      trimCh, ltrimCh, rtrimCh]
  refine ⟨h1, h2, ?_⟩
  rw [h1, h2]
  decide

/-- C5 (amended): partition keys are exactly the non-null cleaned names (a
record whose cleaned name is null joins no partition and produces no tenant),
and every record with a non-null cleaned name — INCLUDING the empty string,
which `pd.notna` does not drop — belongs to exactly one partition, keyed by
its cleaned name. -/
theorem C5_partition (raw : List PyVal) (v : PyVal) (hv : v ∈ raw) :
    (∀ t ∈ computeTenants raw, some t ∈ raw.map clean_tenant_name_nav) ∧
    (clean_tenant_name_nav v = Option.none →
      ∀ t ∈ computeTenants raw, clean_tenant_name_nav v ≠ some t) ∧
    (∀ c, clean_tenant_name_nav v = some c →
      c ∈ computeTenants raw ∧ (computeTenants raw).count c = 1) := by
  refine ⟨?_, ?_, ?_⟩
  · intro t ht
    exact (computeTenants_mem raw t).mp ht
  · intro hnone t _ h
    rw [hnone] at h
    cases h
  · intro c hc
    have hmem : c ∈ computeTenants raw := by
      refine (computeTenants_mem raw c).mpr ?_
      rw [List.mem_map]
      exact ⟨v, hv, hc⟩
    refine ⟨hmem, ?_⟩
    have hnd := computeTenants_nodup raw
    have hle := List.nodup_iff_count_le_one.mp hnd c
    have hpos : 0 < (computeTenants raw).count c := List.count_pos_iff.mpr hmem
    omega

/-- C5 witness: the theorem applied to the one-record column ["A"]. -/
theorem C5_witness :
    "A" ∈ computeTenants [PyVal.str "A"] ∧
    (computeTenants [PyVal.str "A"]).count "A" = 1 := by
  have hc : clean_tenant_name_nav (PyVal.str "A") = some "A" := by
    simp +decide [clean_tenant_name_nav, pyIsNa, pyStr, removeBrackets,
      findClose, wsTokens, joinSp, trimCh, ltrimCh, rtrimCh]
  exact (C5_partition [PyVal.str "A"] (PyVal.str "A") (by simp)).2.2 "A" hc

/-- C5 counterexample: a record whose tenant name cleans to the EMPTY string
is not excluded: `pd.notna('')` holds, so `''` becomes a tenant, receives a
navigation row (row 3), and its sheets are built — the claim says such a
record contributes no navigation row and no sheet. -/
theorem C5_counterexample :
    clean_tenant_name_nav (PyVal.str "[X]") = some "" ∧
    computeTenants [PyVal.str "[X]"] = [""] ∧
    navRows (computeTenants [PyVal.str "[X]"]) = [(3, some "")] := by
  have h1 : clean_tenant_name_nav (PyVal.str "[X]") = some "" := by
    simp +decide [clean_tenant_name_nav, pyIsNa, pyStr, removeBrackets,
      findClose, wsTokens, joinSp, trimCh, ltrimCh, rtrimCh]
  have h2 : computeTenants [PyVal.str "[X]"] = [""] := by
    unfold computeTenants
    rw [List.map_cons, List.map_nil, h1]
    rw [uniqueFirst]
    simp only [List.filter_nil]
    rw [uniqueFirst]
    simp
  refine ⟨h1, h2, ?_⟩
  rw [h2]
  have h3 : clean_tenant_name_nav (PyVal.str "") = some "" := by
    simp +decide [clean_tenant_name_nav, pyIsNa, pyStr, removeBrackets,
      findClose, wsTokens, joinSp, trimCh, ltrimCh, rtrimCh]
  simp [navRows, h3]
  decide

/-- C6: the left join preserves every inventory row: with exactly one
hardware match per inventory key the result has exactly N rows whose
inventory parts are the input rows in order, and an inventory row with no
hardware match appears exactly once, with the hardware side null. -/
theorem C6_left_join (inv : List InvRow) (hw : List HwRow) :
    ((∀ r ∈ inv, (hw.filter (fun h => h.fqdn == r.fqdn)).length = 1) →
      (leftJoin inv hw).length = inv.length ∧
      (leftJoin inv hw).map Prod.fst = inv) ∧
    (∀ r ∈ inv, hw.filter (fun h => h.fqdn == r.fqdn) = [] →
      (r, (Option.none : Option HwRow)) ∈ leftJoin inv hw) := by
  constructor
  · intro hone
    induction inv with
    | nil => simp [leftJoin]
    | cons r rest ih =>
      have hr := hone r (by simp)
      obtain ⟨h, hh⟩ := List.length_eq_one.mp hr
      have hrec := ih (fun r2 hr2 => hone r2 (by simp [hr2]))
      have hstep : leftJoin (r :: rest) hw =
          (match hw.filter (fun h => h.fqdn == r.fqdn) with
           | [] => [(r, Option.none)]
           | ms => ms.map (fun h => (r, some h))) ++ leftJoin rest hw := rfl
      rw [hstep, hh]
      constructor
      · simp [hrec.1]
      · simp [hrec.2]
  · intro r hr hfil
    induction inv with
    | nil => simp at hr
    | cons a rest ih =>
      have hstep : leftJoin (a :: rest) hw =
          (match hw.filter (fun h => h.fqdn == a.fqdn) with
           | [] => [(a, Option.none)]
           | ms => ms.map (fun h => (a, some h))) ++ leftJoin rest hw := rfl
      rw [hstep]
      rcases List.mem_cons.mp hr with h1 | h2
      · subst h1
        rw [hfil]
        exact List.mem_append_left _ (by simp)
      · exact List.mem_append_right _ (ih h2)

/-- C6 witness: one inventory row, one matching hardware row. -/
theorem C6_witness :
    (leftJoin [⟨"d1", PyVal.null, PyVal.null, PyVal.null, PyVal.null⟩]
        [⟨"d1", PyVal.null, PyVal.null, PyVal.null, PyVal.null⟩]).length = 1 ∧
    (leftJoin [⟨"d1", PyVal.null, PyVal.null, PyVal.null, PyVal.null⟩]
        [⟨"d1", PyVal.null, PyVal.null, PyVal.null, PyVal.null⟩]).map Prod.fst =
      [⟨"d1", PyVal.null, PyVal.null, PyVal.null, PyVal.null⟩] :=
  (C6_left_join _ _).1 (by
    intro r hr
    rcases List.mem_cons.mp hr with h1 | h2
    · subst h1; rfl
    · simp at h2)

/-- C7 (code bug in temp.py): two groups, K = 2 then K = 1.  In both
pipelines the sheet holds exactly K contiguous data rows per device (rows
3–4 for "a", row 5 for "b") and only the K = 2 group gets a merge.  In
part_000 the merged range is rows 3–4, exactly the group's data rows; in
temp.py `current_row` starts at 2 although appends land from row 3, so the
merged range is rows 2–3 — it covers the header row and misses the group's
last row, contradicting the claim that the identifier cell spans all K rows. -/
theorem C7_merged_sheet_rows :
    create_merged_sheet_nav
      [("a", [some "s1", some "1"], [[some "s2", some "2"]]),
       ("b", [some "s3", some "3"], [])] =
      ([(3, some "a", [some "s1", some "1"]),
        (4, Option.none, [some "s2", some "2"]),
        (5, some "b", [some "s3", some "3"])],
       [⟨3, 4, 1⟩]) ∧
    create_merged_sheet_temp
      [("a", [some "s1", some "1"], [[some "s2", some "2"]]),
       ("b", [some "s3", some "3"], [])] =
      ([(3, some "a", [some "s1", some "1"]),
        (4, Option.none, [some "s2", some "2"]),
        (5, some "b", [some "s3", some "3"])],
       [⟨2, 3, 1⟩]) := by
  refine ⟨by decide, by decide⟩

/-- C8: the per-tenant loop with the caught-exception semantics of
`create_tenant_sheets`: whatever any other tenant's body does (including
raising — the `Bool` flag), every sheet a tenant's body added reaches the
final output. -/
theorem C8_tenant_isolation (body : String → List String × Bool)
    (tenants : List String) (t : String) (ht : t ∈ tenants)
    (sheet : String) (hs : sheet ∈ (body t).1) :
    sheet ∈ processTenantsLoop body tenants := by
  induction tenants with
  | nil => simp at ht
  | cons a rest ih =>
    have hstep : processTenantsLoop body (a :: rest) =
        (body a).1 ++ processTenantsLoop body rest := rfl
    rw [hstep]
    rcases List.mem_cons.mp ht with h1 | h2
    · subst h1
      exact List.mem_append_left _ hs
    · exact List.mem_append_right _ (ih h2)

/-- C8 witness: tenant "bad" raises after adding nothing, tenant "good"
still contributes its sheet. -/
theorem C8_witness :
    "good_MAIN" ∈ processTenantsLoop
      (fun t => if t = "bad" then ([], true) else ([t ++ "_MAIN"], false))
      ["bad", "good"] :=
  C8_tenant_isolation
    (fun t => if t = "bad" then ([], true) else ([t ++ "_MAIN"], false))
    ["bad", "good"] "good" (by simp) "good_MAIN" (by decide)

/-- C9 (amended): the two pipelines agree on `parse_os_data` for null
inputs, mapping inputs, and marker-free strings, and on `clean_tenant_name`
for strings whose bracket-stripped text is unchanged by whitespace-run
collapsing; they diverge elsewhere (see the counterexample: falsy
non-strings, names with collapsible whitespace). -/
theorem C9_pipeline_agreement (jloads lev : String → Option PyVal) :
    (parse_os_data_temp jloads lev PyVal.null =
      parse_os_data_nav jloads lev PyVal.null) ∧
    (∀ kvs, parse_os_data_temp jloads lev (PyVal.dict kvs) =
      parse_os_data_nav jloads lev (PyVal.dict kvs)) ∧
    (∀ s, hasOsMarkers s = false →
      parse_os_data_temp jloads lev (PyVal.str s) =
        parse_os_data_nav jloads lev (PyVal.str s)) ∧
    (∀ s, collapseRuns (removeBrackets s.toList) = removeBrackets s.toList →
      clean_tenant_name_temp (PyVal.str s) = clean_tenant_name_nav (PyVal.str s)) := by
  refine ⟨?_, ?_, ?_, ?_⟩
  · simp [parse_os_data_temp, parse_os_data_nav, pyIsNa]
  · intro kvs
    cases kvs with
    | nil =>
      simp [parse_os_data_temp, parse_os_data_nav, pyIsNa, isEmptyStr,
        pyTruthy, osFromDecoded, extractField, dictGet, pyStrip, pyStr,
        trimCh, ltrimCh, rtrimCh]
    | cons p kvs2 =>
      simp [parse_os_data_temp, parse_os_data_nav, pyIsNa, isEmptyStr,
        pyTruthy, osFromDecoded]
  · intro s hm
    by_cases hs : s = ""
    · subst hs
      simp [parse_os_data_temp, parse_os_data_nav, pyIsNa, isEmptyStr, pyTruthy]
    · simp [parse_os_data_temp, parse_os_data_nav, pyIsNa, isEmptyStr,
        pyTruthy, hs, hm]
  · intro s hcol
    unfold clean_tenant_name_temp clean_tenant_name_nav
    simp only [pyIsNa, Bool.false_eq_true, if_false, pyStr]
    rw [trim_joinSp_tokens, ← trimCollapse_eq_joinTokens, hcol]

/-- C9 witness: agreement instances — a marker-free OS string and a tenant
name with no collapsible whitespace. -/
theorem C9_witness :
    parse_os_data_temp (fun _ => Option.none) (fun _ => Option.none)
      (PyVal.str "Ubuntu 22.04") =
      parse_os_data_nav (fun _ => Option.none) (fun _ => Option.none)
        (PyVal.str "Ubuntu 22.04") ∧
    clean_tenant_name_temp (PyVal.str "Acme Co") =
      clean_tenant_name_nav (PyVal.str "Acme Co") := by
  constructor
  · exact (C9_pipeline_agreement (fun _ => Option.none)
      (fun _ => Option.none)).2.2.1 "Ubuntu 22.04" (by decide)
  · refine (C9_pipeline_agreement (fun _ => Option.none)
      (fun _ => Option.none)).2.2.2 "Acme Co" ?_
    simp +decide [removeBrackets, findClose, collapseRuns]

/-- C9 counterexample: the pipelines are NOT behaviorally equivalent —
`clean_tenant_name` differs on "A  B" (temp keeps the double space) and
`parse_os_data` differs on the falsy number 0 (temp's truthiness guard
returns (null, null), part_000 returns ("0", null)). -/
theorem C9_counterexample :
    clean_tenant_name_temp (PyVal.str "A  B") = some "A  B" ∧
    clean_tenant_name_nav (PyVal.str "A  B") = some "A B" ∧
    clean_tenant_name_temp (PyVal.str "A  B") ≠
      clean_tenant_name_nav (PyVal.str "A  B") ∧
    parse_os_data_temp (fun _ => Option.none) (fun _ => Option.none)
      (PyVal.int 0) = (Option.none, Option.none) ∧
    parse_os_data_nav (fun _ => Option.none) (fun _ => Option.none)
      (PyVal.int 0) = (some "0", Option.none) ∧
    parse_os_data_temp (fun _ => Option.none) (fun _ => Option.none)
      (PyVal.int 0) ≠
      parse_os_data_nav (fun _ => Option.none) (fun _ => Option.none)
        (PyVal.int 0) := by
  have h1 : clean_tenant_name_temp (PyVal.str "A  B") = some "A  B" := by
    simp +decide [clean_tenant_name_temp, pyIsNa, pyStr, removeBrackets,
      findClose, trimCh, ltrimCh, rtrimCh]
  have h2 : clean_tenant_name_nav (PyVal.str "A  B") = some "A B" := by
    simp +decide [clean_tenant_name_nav, pyIsNa, pyStr, removeBrackets,
      findClose, wsTokens, joinSp, trimCh, ltrimCh, rtrimCh]
  have h4 : parse_os_data_temp (fun _ => Option.none) (fun _ => Option.none)
      (PyVal.int 0) = (Option.none, Option.none) := by decide
  have h5 : parse_os_data_nav (fun _ => Option.none) (fun _ => Option.none)
      (PyVal.int 0) = (some "0", Option.none) := by
    simp +decide [parse_os_data_nav, pyIsNa, isEmptyStr, osFromDecoded,
      pyStr, pyRepr]
  refine ⟨h1, h2, ?_, h4, h5, ?_⟩
  · rw [h1, h2]
    decide
  · rw [h4, h5]
    decide

/-- C10 (amended): for every non-null SCALAR value that is neither a string
nor a mapping, part_000's `parse_os_data` returns (string form, null);
temp.py's does so only when the value is truthy — falsy values such as 0
return (null, null) there (see the counterexample). -/
theorem C10_nonstring_scalar (jloads lev : String → Option PyVal) (v : PyVal)
    (hsc : pyScalar v = true) (hna : pyIsNa v = false)
    (hstr : ∀ s, v ≠ PyVal.str s) (hdict : ∀ kvs, v ≠ PyVal.dict kvs) :
    parse_os_data_nav jloads lev v = (some (pyStr v), Option.none) ∧
    (pyTruthy v = true →
      parse_os_data_temp jloads lev v = (some (pyStr v), Option.none)) := by
  cases v with
  | null => simp [pyIsNa] at hna
  | str s => exact absurd rfl (hstr s)
  | dict kvs => exact absurd rfl (hdict kvs)
  | list xs => simp [pyScalar] at hsc
  | bool b =>
    constructor
    · simp [parse_os_data_nav, pyIsNa, isEmptyStr, osFromDecoded]
    · intro htr
      simp [parse_os_data_temp, pyIsNa, htr]
  | int n =>
    constructor
    · simp [parse_os_data_nav, pyIsNa, isEmptyStr, osFromDecoded]
    · intro htr
      simp [parse_os_data_temp, pyIsNa, htr]

/-- C10 witness: the truthy number 5 gives ("5", null) in both pipelines. -/
theorem C10_witness :
    parse_os_data_nav (fun _ => Option.none) (fun _ => Option.none)
      (PyVal.int 5) = (some (pyStr (PyVal.int 5)), Option.none) ∧
    parse_os_data_temp (fun _ => Option.none) (fun _ => Option.none)
      (PyVal.int 5) = (some (pyStr (PyVal.int 5)), Option.none) := by
  have h := C10_nonstring_scalar (fun _ => Option.none) (fun _ => Option.none)
    (PyVal.int 5) (by decide) (by decide)
    (fun s h => by cases h) (fun kvs h => by cases h)
  exact ⟨h.1, h.2 (by decide)⟩

/-- C10 counterexample: the number 0 is non-null, not a string and not a
mapping, yet temp.py's `parse_os_data` returns (null, null), not
("0", null), because its guard tests Python truthiness. -/
theorem C10_counterexample :
    pyIsNa (PyVal.int 0) = false ∧
    pyStr (PyVal.int 0) = "0" ∧
    parse_os_data_temp (fun _ => Option.none) (fun _ => Option.none)
      (PyVal.int 0) = (Option.none, Option.none) ∧
    parse_os_data_temp (fun _ => Option.none) (fun _ => Option.none)
      (PyVal.int 0) ≠ (some (pyStr (PyVal.int 0)), Option.none) := by
  have h2 : pyStr (PyVal.int 0) = "0" := by
    simp +decide [pyStr, pyRepr]
  refine ⟨rfl, h2, by decide, ?_⟩
  rw [h2, show parse_os_data_temp (fun _ => Option.none) (fun _ => Option.none)
    (PyVal.int 0) = (Option.none, Option.none) by decide]
  decide

end KumaAssets
